import Mathlib

/-!
Verification of the table-assignment and availability engine of a restaurant
reservation system. The SQL procedures of docs/sql/03_reservation_functions.sql
are embedded as pure Lean functions over an explicit database state `DB`:
machine timestamps become integers (minutes), SQL rows become structures and
SQL queries become list computations whose row order is fixed by explicit
insertion sorts mirroring the ORDER BY clauses.
-/

/-! ## Generic list machinery: sorting by a key and SQL's DISTINCT ON -/

def keyLe {α β : Type} [LinearOrder β] (key : α → β) : α → α → Prop :=
  fun a b => key a ≤ key b

instance keyLeDecidable {α β : Type} [LinearOrder β] (key : α → β) :
    DecidableRel (keyLe key) :=
  fun a b => inferInstanceAs (Decidable (key a ≤ key b))

instance keyLeTotal {α β : Type} [LinearOrder β] (key : α → β) : IsTotal α (keyLe key) :=
  ⟨fun a b => le_total (key a) (key b)⟩

instance keyLeTrans {α β : Type} [LinearOrder β] (key : α → β) : IsTrans α (keyLe key) :=
  ⟨fun _ _ _ hab hbc => le_trans hab hbc⟩

instance keyLeRefl {α β : Type} [LinearOrder β] (key : α → β) : IsRefl α (keyLe key) :=
  ⟨fun a => le_refl (key a)⟩

/-- Sort a list by a key drawn from a linear order (models SQL ORDER BY). -/
def sortByKey {α β : Type} [LinearOrder β] (key : α → β) (l : List α) : List α :=
  List.insertionSort (keyLe key) l

theorem sortByKey_perm {α β : Type} [LinearOrder β] (key : α → β) (l : List α) :
    List.Perm (sortByKey key l) l :=
  List.perm_insertionSort _ l

theorem sortByKey_sorted {α β : Type} [LinearOrder β] (key : α → β) (l : List α) :
    List.Sorted (keyLe key) (sortByKey key l) :=
  List.sorted_insertionSort _ l

/-- Keep the first element of each group of equal keys (models SQL DISTINCT ON
applied to a list already sorted by the grouping key). -/
def distinctOn {α β : Type} [DecidableEq β] (key : α → β) : List α → List α
  | [] => []
  | x :: xs => x :: distinctOn key (xs.filter fun y => !(key y == key x))
termination_by l => l.length
decreasing_by
  exact Nat.lt_succ_of_le (List.length_filter_le _ _)

theorem distinctOn_subset {α β : Type} [DecidableEq β] (key : α → β) :
    ∀ l : List α, ∀ x ∈ distinctOn key l, x ∈ l
  | [], x, hx => by simp [distinctOn] at hx
  | a :: as, x, hx => by
    rw [distinctOn] at hx
    rcases List.mem_cons.mp hx with h | h
    · exact h ▸ List.mem_cons_self a as
    · exact List.mem_cons_of_mem a (List.mem_of_mem_filter (distinctOn_subset key _ x h))
termination_by l => l.length
decreasing_by
  exact Nat.lt_succ_of_le (List.length_filter_le _ _)

theorem distinctOn_exists_of_mem {α β : Type} [DecidableEq β] (key : α → β) :
    ∀ l : List α, ∀ x ∈ l, ∃ y ∈ distinctOn key l, key y = key x
  | [], x, hx => absurd hx (List.not_mem_nil x)
  | a :: as, x, hx => by
    rw [distinctOn]
    by_cases hk : key x = key a
    · exact ⟨a, List.mem_cons_self _ _, hk.symm⟩
    · rcases List.mem_cons.mp hx with h | h
      · exact absurd (congrArg key h) hk
      · have hxf : x ∈ as.filter fun y => !(key y == key a) := by
          refine List.mem_filter.mpr ⟨h, ?_⟩
          simp [hk]
        obtain ⟨y, hy, hkey⟩ := distinctOn_exists_of_mem key _ x hxf
        exact ⟨y, List.mem_cons_of_mem a hy, hkey⟩
termination_by l => l.length
decreasing_by
  exact Nat.lt_succ_of_le (List.length_filter_le _ _)

theorem distinctOn_pairwise {α β : Type} [DecidableEq β] (key : α → β) :
    ∀ l : List α, List.Pairwise (fun a b => key a ≠ key b) (distinctOn key l)
  | [] => by simp [distinctOn]
  | a :: as => by
    rw [distinctOn]
    refine List.pairwise_cons.mpr ⟨?_, distinctOn_pairwise key _⟩
    intro b hb
    have hbf := distinctOn_subset key _ b hb
    have := (List.mem_filter.mp hbf).2
    simp at this
    exact fun h => this h.symm
termination_by l => l.length
decreasing_by
  exact Nat.lt_succ_of_le (List.length_filter_le _ _)

theorem distinctOn_min {α β : Type} [DecidableEq β] (key : α → β)
    {r : α → α → Prop} [IsRefl α r] :
    ∀ l : List α, List.Sorted r l →
      ∀ x ∈ distinctOn key l, ∀ y ∈ l, key y = key x → r x y
  | [], _, x, hx => by simp [distinctOn] at hx
  | a :: as, hs, x, hx => by
    rw [distinctOn] at hx
    have hs' := List.sorted_cons.mp hs
    rcases List.mem_cons.mp hx with h | h
    · subst h
      intro y hy _
      rcases List.mem_cons.mp hy with h' | h'
      · subst h'
        exact refl_of r y
      · exact hs'.1 y h'
    · intro y hy hkey
      have hxas := List.mem_of_mem_filter (distinctOn_subset key _ x h)
      have hkx : ¬(key x = key a) := by
        have := (List.mem_filter.mp (distinctOn_subset key _ x h)).2
        simp at this
        exact this
      rcases List.mem_cons.mp hy with h' | h'
      · exact absurd (hkey.symm.trans (congrArg key h')) hkx
      · have hyfilter : y ∈ as.filter fun z => !(key z == key a) := by
          refine List.mem_filter.mpr ⟨h', ?_⟩
          simp
          exact fun hc => hkx (hkey ▸ hc)
        have hsf : List.Sorted r (as.filter fun z => !(key z == key a)) :=
          List.Sorted.filter _ hs'.2
        exact distinctOn_min key _ hsf x h y hyfilter hkey
termination_by l => l.length
decreasing_by
  exact Nat.lt_succ_of_le (List.length_filter_le _ _)

theorem sortByKey_head_min {α β : Type} [LinearOrder β] (key : α → β) (l : List α)
    (x : α) (hx : (sortByKey key l).head? = some x) :
    x ∈ l ∧ ∀ y ∈ l, key x ≤ key y := by
  cases hsort : sortByKey key l with
  | nil => rw [hsort] at hx; exact absurd hx (by simp)
  | cons a rest =>
    rw [hsort] at hx
    have hax : a = x := by simpa using hx
    subst hax
    have hperm : List.Perm (a :: rest) l := hsort ▸ sortByKey_perm key l
    have hsorted : List.Sorted (keyLe key) (a :: rest) := hsort ▸ sortByKey_sorted key l
    constructor
    · exact hperm.mem_iff.mp (List.mem_cons_self a rest)
    · intro y hy
      have hy' : y ∈ a :: rest := hperm.mem_iff.mpr hy
      rcases List.mem_cons.mp hy' with h | h
      · exact h ▸ le_refl _
      · exact (List.sorted_cons.mp hsorted).1 y h

/-! ## Data model (docs/sql: zones, tables, table_combinations, reservations,
reservation_table_assignments, time_slots, restaurant_schedules,
special_closed_days, special_schedule_days) -/

inductive ResStatus : Type
  | confirmed
  | arrived
  | cancelled
  | completed
deriving DecidableEq

structure Zone where
  id : Nat
  name : String
  priority_order : Int
  is_active : Bool
  color : String
deriving DecidableEq

structure Table where
  id : Nat
  name : String
  capacity : Int
  extra_capacity : Option Int
  zone_id : Option Nat
  is_active : Bool
deriving DecidableEq

structure TableCombination where
  id : Nat
  table_ids : List Nat
  total_capacity : Int
  zone_id : Option Nat
  is_active : Bool
deriving DecidableEq

structure Reservation where
  id : Nat
  customer_id : Nat
  date : Nat
  time : Nat
  guests : Int
  status : ResStatus
  start_at : Int
  end_at : Int
  duration_minutes : Nat
deriving DecidableEq

structure Assignment where
  reservation_id : Nat
  table_id : Nat
deriving DecidableEq

structure RestaurantSchedule where
  day_of_week : Nat
  opening_time : Nat
  closing_time : Nat
  is_active : Bool
deriving DecidableEq

structure SpecialClosedDay where
  is_range : Bool
  date : Nat
  range_start : Nat
  range_end : Nat
deriving DecidableEq

structure SpecialScheduleDay where
  date : Nat
  opening_time : Nat
  closing_time : Nat
  is_active : Bool
deriving DecidableEq

structure DB where
  zones : List Zone
  tables : List Table
  table_combinations : List TableCombination
  reservations : List Reservation
  reservation_table_assignments : List Assignment
  time_slots : List Nat
  restaurant_schedules : List RestaurantSchedule
  special_closed_days : List SpecialClosedDay
  special_schedule_days : List SpecialScheduleDay
deriving DecidableEq

/-- Status filter `status IN ('confirmed', 'arrived')` used by every occupancy
query. -/
def statusActive : ResStatus → Bool
  | .confirmed => true
  | .arrived => true
  | _ => false

/-- Civil date+time to a timestamp: dates are day numbers, times minutes of the
day, timestamps minutes on one linear axis (the AT TIME ZONE conversion of the
source is an order-preserving relabelling and is dropped). -/
def toInstant (d : Nat) (t : Nat) : Int :=
  (d : Int) * 1440 + (t : Int)

/-- EXTRACT(DOW FROM date) for dates modelled as day numbers. -/
def dayOfWeek (d : Nat) : Nat := d % 7

/-- The SQL reservation-exclusion condition
`p_exclude_reservation_id IS NULL OR r.id != p_exclude_reservation_id`. -/
def exclOk (excl : Option Nat) (rid : Nat) : Bool :=
  match excl with
  | none => true
  | some x => !(rid == x)

theorem exclOk_iff (excl : Option Nat) (rid : Nat) :
    exclOk excl rid = true ↔ ∀ x, excl = some x → rid ≠ x := by
  cases excl <;> simp [exclOk]

theorem statusActive_iff (s : ResStatus) :
    statusActive s = true ↔ (s = .confirmed ∨ s = .arrived) := by
  cases s <;> simp [statusActive]

def lookupZone (db : DB) (zid : Nat) : Option Zone :=
  db.zones.find? fun z => z.id == zid

/-! ## Occupancy queries (the overlap semantics shared by the read paths) -/

/-- The `occupied_tables` CTE of get_available_tables_for_reservation: distinct
table ids carrying a confirmed/arrived reservation of the date whose
`[start_at, end_at)` interval overlaps `[s, e)`, minus the excluded
reservation. -/
def occupiedTablesExcl (db : DB) (d : Nat) (s e : Int) (excl : Option Nat) : List Nat :=
  ((db.reservations.filter fun r =>
      r.date == d && statusActive r.status && decide (r.start_at < e) &&
        decide (r.end_at > s) && exclOk excl r.id).flatMap fun r =>
    (db.reservation_table_assignments.filter fun a => a.reservation_id == r.id).map
      fun a => a.table_id).dedup

/-- The `occupied_tables` CTE of get_available_time_slots_with_zones for one
slot window (that query has no exclusion parameter). -/
def occupiedForWindow (db : DB) (d : Nat) (s e : Int) : List Nat :=
  ((db.reservations.filter fun r =>
      r.date == d && statusActive r.status && decide (r.start_at < e) &&
        decide (r.end_at > s)).flatMap fun r =>
    (db.reservation_table_assignments.filter fun a => a.reservation_id == r.id).map
      fun a => a.table_id).dedup

theorem mem_occupiedTablesExcl (db : DB) (d : Nat) (s e : Int) (excl : Option Nat)
    (tid : Nat) :
    tid ∈ occupiedTablesExcl db d s e excl ↔
      ∃ r ∈ db.reservations, ∃ a ∈ db.reservation_table_assignments,
        a.reservation_id = r.id ∧ a.table_id = tid ∧ r.date = d ∧
        (r.status = .confirmed ∨ r.status = .arrived) ∧
        r.start_at < e ∧ s < r.end_at ∧ (∀ x, excl = some x → r.id ≠ x) := by
  unfold occupiedTablesExcl
  rw [List.mem_dedup]
  simp only [List.mem_flatMap, List.mem_map, List.mem_filter, Bool.and_eq_true,
    decide_eq_true_eq, beq_iff_eq, statusActive_iff, exclOk_iff]
  constructor
  · rintro ⟨r, ⟨hr, ⟨⟨⟨⟨hdate, hst⟩, hlt⟩, hgt⟩, hexcl⟩⟩, a, ⟨ha, haid⟩, htid⟩
    exact ⟨r, hr, a, ha, haid, htid, hdate, hst, hlt, hgt, hexcl⟩
  · rintro ⟨r, hr, a, ha, haid, htid, hdate, hst, hlt, hgt, hexcl⟩
    exact ⟨r, ⟨hr, ⟨⟨⟨⟨hdate, hst⟩, hlt⟩, hgt⟩, hexcl⟩⟩, a, ⟨ha, haid⟩, htid⟩

theorem occupiedForWindow_eq_noExcl (db : DB) (d : Nat) (s e : Int) :
    occupiedForWindow db d s e = occupiedTablesExcl db d s e none := by
  unfold occupiedForWindow occupiedTablesExcl
  simp [exclOk]

/-- C3: a table is occupied for a query window [start, end) iff some reservation
assigned to it, on that date, with status confirmed or arrived, satisfies
existing.start < end and existing.end > start (half-open semantics: touching
endpoints do not conflict), with the excluded reservation ignored when one is
supplied; the slot calculator's inline occupancy check has the same semantics
with no exclusion. -/
theorem occupied_iff_halfopen_overlap (db : DB) (d : Nat) (s e : Int)
    (excl : Option Nat) (tid : Nat) :
    (tid ∈ occupiedTablesExcl db d s e excl ↔
      ∃ r ∈ db.reservations, ∃ a ∈ db.reservation_table_assignments,
        a.reservation_id = r.id ∧ a.table_id = tid ∧ r.date = d ∧
        (r.status = .confirmed ∨ r.status = .arrived) ∧
        r.start_at < e ∧ s < r.end_at ∧ (∀ x, excl = some x → r.id ≠ x)) ∧
      occupiedForWindow db d s e = occupiedTablesExcl db d s e none := by
  exact ⟨mem_occupiedTablesExcl db d s e excl tid, occupiedForWindow_eq_noExcl db d s e⟩

/-! ## FUNCIÓN 1: assign_tables_to_reservation -/

/-- Modelled from the spec: `is_table_available` is called by
assign_tables_to_reservation but its definition is not among the repository's
files; following §4.1 it returns false iff a reservation on that table, on that
date, with status confirmed or arrived, satisfies
`existing.start < end AND existing.end > start`, excluding the given
reservation id when supplied. -/
def is_table_available (db : DB) (tid : Nat) (d : Nat) (s e : Int)
    (excl : Option Nat) : Bool :=
  !(db.reservations.any fun r =>
    r.date == d && statusActive r.status && decide (r.start_at < e) &&
      decide (r.end_at > s) && exclOk excl r.id &&
      (db.reservation_table_assignments.any fun a =>
        a.reservation_id == r.id && a.table_id == tid))

/-- Rows of the single-table query of assign_tables_to_reservation: active
tables of the zone with sufficient capacity passing is_table_available. -/
def singleCandidates (db : DB) (zid : Nat) (g : Int) (d : Nat) (s e : Int) :
    List Table :=
  db.tables.filter fun t =>
    t.is_active && (t.zone_id == some zid) && decide (g ≤ t.capacity) &&
      is_table_available db t.id d s e none

/-- ORDER BY t.capacity ASC LIMIT 1 over the single-table candidates. -/
def pickSingle (db : DB) (zid : Nat) (g : Int) (d : Nat) (s e : Int) :
    Option Table :=
  (sortByKey (fun t : Table => t.capacity) (singleCandidates db zid g d s e)).head?

/-- Rows of the combination query: active combinations of the zone with
sufficient total capacity all of whose member tables pass is_table_available. -/
def comboCandidates (db : DB) (zid : Nat) (g : Int) (d : Nat) (s e : Int) :
    List TableCombination :=
  db.table_combinations.filter fun c =>
    c.is_active && (c.zone_id == some zid) && decide (g ≤ c.total_capacity) &&
      !(c.table_ids.any fun tid => !(is_table_available db tid d s e none))

/-- ORDER BY tc.total_capacity ASC LIMIT 1 over the combination candidates. -/
def pickCombo (db : DB) (zid : Nat) (g : Int) (d : Nat) (s e : Int) :
    Option TableCombination :=
  (sortByKey (fun c : TableCombination => c.total_capacity)
    (comboCandidates db zid g d s e)).head?

/-- Sort key of the zone loop:
`CASE WHEN z.id = p_preferred_zone_id THEN 0 ELSE 1 END, z.priority_order`. -/
def zoneKey (pz : Option Nat) (z : Zone) : Lex (Nat × Int) :=
  toLex (if pz == some z.id then 0 else 1, z.priority_order)

/-- The zone cursor of assign_tables_to_reservation: active zones restricted by
`p_preferred_zone_id IS NULL OR z.id = p_preferred_zone_id`, ordered by the
preferred-first key. -/
def candidateZones (db : DB) (pz : Option Nat) : List Zone :=
  sortByKey (zoneKey pz) (db.zones.filter fun z =>
    z.is_active && (pz.isNone || pz == some z.id))

/-- Zone enumeration as the specification words it (for the refinement
comparison of the zone search): every active zone, the preferred one first,
the rest ascending by priority order — no restriction to the preferred zone. -/
def candidateZonesSpecOrder (db : DB) (pz : Option Nat) : List Zone :=
  sortByKey (zoneKey pz) (db.zones.filter fun z => z.is_active)

/-- INSERT INTO reservation_table_assignments, one row per assigned table. -/
def insertAssignments (db : DB) (rid : Nat) (tids : List Nat) : DB :=
  { db with reservation_table_assignments :=
      db.reservation_table_assignments ++ tids.map fun tid => ⟨rid, tid⟩ }

/-- The zone loop body: in each zone first the single-table strategy, then the
combination strategy, returning on the first success. -/
def assignInZones (db : DB) (rid : Nat) (d : Nat) (s e : Int) (g : Int) :
    List Zone → List Nat × DB
  | [] => ([], db)
  | z :: rest =>
    match pickSingle db z.id g d s e with
    | some t => ([t.id], insertAssignments db rid [t.id])
    | none =>
      match pickCombo db z.id g d s e with
      | some c => (c.table_ids, insertAssignments db rid c.table_ids)
      | none => assignInZones db rid d s e g rest

/-- FUNCIÓN 1 of the source: returns the assigned table ids together with the
database carrying the inserted assignment rows (`ARRAY[]::uuid[]` = `[]`). -/
def assign_tables_to_reservation (db : DB) (rid : Nat) (d : Nat) (s e : Int)
    (g : Int) (pz : Option Nat) : List Nat × DB :=
  assignInZones db rid d s e g (candidateZones db pz)

/-- The allocator as the spec's zone ordering words it (C1's reading): the
preferred zone first, then every other active zone ascending by priority. -/
def assignSpecOrdered (db : DB) (rid : Nat) (d : Nat) (s e : Int)
    (g : Int) (pz : Option Nat) : List Nat × DB :=
  assignInZones db rid d s e g (candidateZonesSpecOrder db pz)

/-! ## Allocator lemmas -/

theorem mem_singleCandidates (db : DB) (zid : Nat) (g : Int) (d : Nat) (s e : Int)
    (t : Table) :
    t ∈ singleCandidates db zid g d s e ↔
      t ∈ db.tables ∧ t.is_active = true ∧ t.zone_id = some zid ∧ g ≤ t.capacity ∧
        is_table_available db t.id d s e none = true := by
  unfold singleCandidates
  simp only [List.mem_filter, Bool.and_eq_true, decide_eq_true_eq, beq_iff_eq]
  tauto

theorem mem_comboCandidates (db : DB) (zid : Nat) (g : Int) (d : Nat) (s e : Int)
    (c : TableCombination) :
    c ∈ comboCandidates db zid g d s e ↔
      c ∈ db.table_combinations ∧ c.is_active = true ∧ c.zone_id = some zid ∧
        g ≤ c.total_capacity ∧
        ∀ tid ∈ c.table_ids, is_table_available db tid d s e none = true := by
  unfold comboCandidates
  simp only [List.mem_filter, Bool.and_eq_true, decide_eq_true_eq, beq_iff_eq,
    Bool.not_eq_true', List.any_eq_false, Bool.not_eq_false]
  tauto

theorem pickSingle_none_iff (db : DB) (zid : Nat) (g : Int) (d : Nat) (s e : Int) :
    pickSingle db zid g d s e = none ↔ singleCandidates db zid g d s e = [] := by
  unfold pickSingle
  constructor
  · intro h
    have hnil : sortByKey (fun t : Table => t.capacity) (singleCandidates db zid g d s e) = [] :=
      List.head?_eq_none_iff.mp h
    exact ((hnil ▸ sortByKey_perm (fun t : Table => t.capacity)
      (singleCandidates db zid g d s e)).symm).eq_nil
  · intro h
    rw [h]
    rfl

theorem pickCombo_none_iff (db : DB) (zid : Nat) (g : Int) (d : Nat) (s e : Int) :
    pickCombo db zid g d s e = none ↔ comboCandidates db zid g d s e = [] := by
  unfold pickCombo
  constructor
  · intro h
    have hnil : sortByKey (fun c : TableCombination => c.total_capacity)
        (comboCandidates db zid g d s e) = [] :=
      List.head?_eq_none_iff.mp h
    exact ((hnil ▸ sortByKey_perm (fun c : TableCombination => c.total_capacity)
      (comboCandidates db zid g d s e)).symm).eq_nil
  · intro h
    rw [h]
    rfl

theorem pickSingle_some (db : DB) (zid : Nat) (g : Int) (d : Nat) (s e : Int)
    (t : Table) (h : pickSingle db zid g d s e = some t) :
    t ∈ singleCandidates db zid g d s e ∧
      ∀ t' ∈ singleCandidates db zid g d s e, t.capacity ≤ t'.capacity :=
  sortByKey_head_min _ _ t h

theorem pickCombo_some (db : DB) (zid : Nat) (g : Int) (d : Nat) (s e : Int)
    (c : TableCombination) (h : pickCombo db zid g d s e = some c) :
    c ∈ comboCandidates db zid g d s e ∧
      ∀ c' ∈ comboCandidates db zid g d s e, c.total_capacity ≤ c'.total_capacity :=
  sortByKey_head_min _ _ c h

theorem assignInZones_empty_state (db : DB) (rid : Nat) (d : Nat) (s e : Int)
    (g : Int) :
    ∀ zs, (assignInZones db rid d s e g zs).1 = [] →
      (assignInZones db rid d s e g zs).2 = db
  | [], _ => rfl
  | z :: rest, h => by
    unfold assignInZones at h ⊢
    cases hs : pickSingle db z.id g d s e with
    | some t =>
      rw [hs] at h
      simp at h
    | none =>
      rw [hs] at h
      cases hc : pickCombo db z.id g d s e with
      | some c =>
        rw [hc] at h
        simp only at h
        show insertAssignments db rid c.table_ids = db
        rw [h]
        simp [insertAssignments]
      | none =>
        rw [hc] at h
        exact assignInZones_empty_state db rid d s e g rest h

theorem assignInZones_cons_single (db : DB) (rid : Nat) (d : Nat) (s e : Int)
    (g : Int) (z : Zone) (rest : List Zone) (t : Table)
    (ht : pickSingle db z.id g d s e = some t) :
    assignInZones db rid d s e g (z :: rest) = ([t.id], insertAssignments db rid [t.id]) := by
  unfold assignInZones
  rw [ht]

theorem assignInZones_cons_combo (db : DB) (rid : Nat) (d : Nat) (s e : Int)
    (g : Int) (z : Zone) (rest : List Zone) (c : TableCombination)
    (hsn : pickSingle db z.id g d s e = none)
    (hc : pickCombo db z.id g d s e = some c) :
    assignInZones db rid d s e g (z :: rest) =
      (c.table_ids, insertAssignments db rid c.table_ids) := by
  unfold assignInZones
  rw [hsn, hc]

theorem assignInZones_cons_skip (db : DB) (rid : Nat) (d : Nat) (s e : Int)
    (g : Int) (z : Zone) (rest : List Zone)
    (hsn : pickSingle db z.id g d s e = none)
    (hcn : pickCombo db z.id g d s e = none) :
    assignInZones db rid d s e g (z :: rest) = assignInZones db rid d s e g rest := by
  conv_lhs => unfold assignInZones
  rw [hsn, hcn]

theorem assignInZones_success (db : DB) (rid : Nat) (d : Nat) (s e : Int) (g : Int) :
    ∀ zs, (assignInZones db rid d s e g zs).1 ≠ [] →
      ∃ zs₁ z zs₂, zs = zs₁ ++ z :: zs₂ ∧
        (∀ z' ∈ zs₁, pickSingle db z'.id g d s e = none ∧
          pickCombo db z'.id g d s e = none) ∧
        ((∃ t, pickSingle db z.id g d s e = some t ∧
            assignInZones db rid d s e g zs = ([t.id], insertAssignments db rid [t.id])) ∨
         (pickSingle db z.id g d s e = none ∧ ∃ c, pickCombo db z.id g d s e = some c ∧
            assignInZones db rid d s e g zs =
              (c.table_ids, insertAssignments db rid c.table_ids)))
  | [], h => absurd rfl h
  | z :: rest, h => by
    cases hs : pickSingle db z.id g d s e with
    | some t =>
      exact ⟨[], z, rest, rfl, by simp,
        Or.inl ⟨t, hs, assignInZones_cons_single db rid d s e g z rest t hs⟩⟩
    | none =>
      cases hc : pickCombo db z.id g d s e with
      | some c =>
        exact ⟨[], z, rest, rfl, by simp,
          Or.inr ⟨hs, c, hc, assignInZones_cons_combo db rid d s e g z rest c hs hc⟩⟩
      | none =>
        have hskip := assignInZones_cons_skip db rid d s e g z rest hs hc
        have h' : (assignInZones db rid d s e g rest).1 ≠ [] := by
          rw [hskip] at h
          exact h
        obtain ⟨zs₁, z', zs₂, heq, hfail, hcase⟩ :=
          assignInZones_success db rid d s e g rest h'
        refine ⟨z :: zs₁, z', zs₂, by rw [heq]; rfl, ?_, ?_⟩
        · intro w hw
          rcases List.mem_cons.mp hw with hwz | hwz
          · exact hwz ▸ ⟨hs, hc⟩
          · exact hfail w hwz
        · rw [hskip]
          exact hcase

theorem assignInZones_all_fail (db : DB) (rid : Nat) (d : Nat) (s e : Int) (g : Int) :
    ∀ zs, (∀ z ∈ zs, pickSingle db z.id g d s e = none ∧
        pickCombo db z.id g d s e = none) →
      assignInZones db rid d s e g zs = ([], db)
  | [], _ => rfl
  | z :: rest, hall => by
    have hz := hall z (List.mem_cons_self z rest)
    rw [assignInZones_cons_skip db rid d s e g z rest hz.1 hz.2]
    exact assignInZones_all_fail db rid d s e g rest
      (fun w hw => hall w (List.mem_cons_of_mem z hw))

/-! ## Concrete databases for the allocator claims -/

/-- Two active zones A (id 1, priority 1) and B (id 2, priority 2); the only
table, of capacity 4, sits in zone A; zone B is empty. -/
def dbPreferredOnly : DB :=
  ⟨[⟨1, "A", 1, true, "green"⟩, ⟨2, "B", 2, true, "blue"⟩],
   [⟨1, "M1", 4, none, some 1, true⟩], [], [], [], [], [], [], []⟩

/-- One active zone holding a capacity-6 table and a combination of two
capacity-2 tables totalling 4. -/
def dbBigTableSmallCombo : DB :=
  ⟨[⟨1, "A", 1, true, "green"⟩],
   [⟨1, "T1", 6, none, some 1, true⟩, ⟨2, "T2", 2, none, some 1, true⟩,
    ⟨3, "T3", 2, none, some 1, true⟩],
   [⟨1, [2, 3], 4, some 1, true⟩], [], [], [], [], [], []⟩

/-- One active zone holding two capacity-3 tables and their combination of
total capacity 6. -/
def dbComboZone : DB :=
  ⟨[⟨1, "A", 1, true, "green"⟩],
   [⟨2, "T2", 3, none, some 1, true⟩, ⟨3, "T3", 3, none, some 1, true⟩],
   [⟨1, [2, 3], 6, some 1, true⟩], [], [], [], [], [], []⟩

/-! ## C1: zone enumeration under a preferred zone -/

/-- C1 counterexample: with preferred zone B (id 2, empty), the source
allocator returns the empty list even though active zone A holds a free,
sufficient table that the spec's preferred-first-then-all-zones enumeration
would assign — the search does not continue past the preferred zone. -/
theorem preferred_zone_no_fallback_cex :
    (assign_tables_to_reservation dbPreferredOnly 10 0 0 120 2 (some 2)).1 = [] ∧
    (assignSpecOrdered dbPreferredOnly 10 0 0 120 2 (some 2)).1 = [1] ∧
    ∃ z ∈ dbPreferredOnly.zones, z.is_active = true ∧ z.id ≠ 2 ∧
      ∃ t ∈ dbPreferredOnly.tables, t.is_active = true ∧ t.zone_id = some z.id ∧
        (2 : Int) ≤ t.capacity ∧
        is_table_available dbPreferredOnly t.id 0 0 120 none = true := by
  decide

/-- C1 amended: when a preferred zone is supplied the allocator searches only
that zone (every enumerated zone is the active preferred one) and returns the
empty list if the preferred zone cannot accommodate the party, with no fallback
to other zones; with no preferred zone, the enumeration is exactly the active
zones in ascending priority order. -/
theorem allocator_zone_enumeration (db : DB) (rid : Nat) (d : Nat) (s e : Int)
    (g : Int) (zid : Nat) :
    (∀ z ∈ candidateZones db (some zid), z.is_active = true ∧ z.id = zid) ∧
    ((∀ z ∈ db.zones, z.is_active = true → z.id = zid →
        singleCandidates db z.id g d s e = [] ∧ comboCandidates db z.id g d s e = []) →
      assign_tables_to_reservation db rid d s e g (some zid) = ([], db)) ∧
    (List.Sorted (keyLe (zoneKey none)) (candidateZones db none) ∧
      ∀ z, z ∈ candidateZones db none ↔ z ∈ db.zones ∧ z.is_active = true) := by
  have hmem : ∀ z, z ∈ candidateZones db (some zid) →
      z ∈ db.zones ∧ z.is_active = true ∧ z.id = zid := by
    intro z hz
    have hz' := (sortByKey_perm (zoneKey (some zid)) _).mem_iff.mp hz
    have h1 := (List.mem_filter.mp hz').1
    have h2 := (List.mem_filter.mp hz').2
    simp at h2
    exact ⟨h1, h2.1, h2.2.symm⟩
  refine ⟨fun z hz => ⟨(hmem z hz).2.1, (hmem z hz).2.2⟩, ?_, ?_, ?_⟩
  · intro hall
    unfold assign_tables_to_reservation
    refine assignInZones_all_fail db rid d s e g _ ?_
    intro z hz
    obtain ⟨hzin, hact, hid⟩ := hmem z hz
    obtain ⟨h1, h2⟩ := hall z hzin hact hid
    exact ⟨(pickSingle_none_iff db z.id g d s e).mpr h1,
      (pickCombo_none_iff db z.id g d s e).mpr h2⟩
  · exact sortByKey_sorted _ _
  · intro z
    constructor
    · intro hz
      have hz' := (sortByKey_perm (zoneKey none) _).mem_iff.mp hz
      have h1 := (List.mem_filter.mp hz').1
      have h2 := (List.mem_filter.mp hz').2
      simp at h2
      exact ⟨h1, h2⟩
    · intro ⟨h1, h2⟩
      refine (sortByKey_perm (zoneKey none) _).mem_iff.mpr ?_
      refine List.mem_filter.mpr ⟨h1, ?_⟩
      simp [h2]

/-! ## C5: strategy order inside a zone -/

/-- C5: on a successful allocation there is a first zone in the enumeration
such that every earlier zone offered neither a single table nor a combination;
in that zone the single-table strategy is tried first (a combination is chosen
only when no single table fits), the returned list is exactly the sole table
or exactly the chosen combination's member tables, and every member table of a
chosen combination passes the availability check. -/
theorem allocator_single_then_combo (db : DB) (rid : Nat) (d : Nat) (s e : Int)
    (g : Int) (pz : Option Nat)
    (h : (assign_tables_to_reservation db rid d s e g pz).1 ≠ []) :
    ∃ zs₁ z zs₂, candidateZones db pz = zs₁ ++ z :: zs₂ ∧
      (∀ z' ∈ zs₁, singleCandidates db z'.id g d s e = [] ∧
        comboCandidates db z'.id g d s e = []) ∧
      ((∃ t, pickSingle db z.id g d s e = some t ∧
          (assign_tables_to_reservation db rid d s e g pz).1 = [t.id]) ∨
       (singleCandidates db z.id g d s e = [] ∧
        ∃ c, pickCombo db z.id g d s e = some c ∧
          (assign_tables_to_reservation db rid d s e g pz).1 = c.table_ids ∧
          ∀ tid ∈ c.table_ids, is_table_available db tid d s e none = true)) := by
  obtain ⟨zs₁, z, zs₂, heq, hfail, hcase⟩ :=
    assignInZones_success db rid d s e g (candidateZones db pz) h
  refine ⟨zs₁, z, zs₂, heq, ?_, ?_⟩
  · intro z' hz'
    obtain ⟨h1, h2⟩ := hfail z' hz'
    exact ⟨(pickSingle_none_iff db z'.id g d s e).mp h1,
      (pickCombo_none_iff db z'.id g d s e).mp h2⟩
  · rcases hcase with ⟨t, ht, heq2⟩ | ⟨hsn, c, hc, heq2⟩
    · refine Or.inl ⟨t, ht, ?_⟩
      unfold assign_tables_to_reservation
      rw [heq2]
    · refine Or.inr ⟨(pickSingle_none_iff db z.id g d s e).mp hsn, c, hc, ?_, ?_⟩
      · unfold assign_tables_to_reservation
        rw [heq2]
      · exact ((mem_comboCandidates db z.id g d s e c).mp
          (pickCombo_some db z.id g d s e c hc).1).2.2.2.2

/-- C5 witness: for a party of 6 in a zone whose two tables seat 3 each, the
allocator falls back to the combination and assigns both member tables. -/
theorem allocator_single_then_combo_witness :
    ∃ zs₁ z zs₂, candidateZones dbComboZone none = zs₁ ++ z :: zs₂ ∧
      (∀ z' ∈ zs₁, singleCandidates dbComboZone z'.id 6 0 0 120 = [] ∧
        comboCandidates dbComboZone z'.id 6 0 0 120 = []) ∧
      ((∃ t, pickSingle dbComboZone z.id 6 0 0 120 = some t ∧
          (assign_tables_to_reservation dbComboZone 10 0 0 120 6 none).1 = [t.id]) ∨
       (singleCandidates dbComboZone z.id 6 0 0 120 = [] ∧
        ∃ c, pickCombo dbComboZone z.id 6 0 0 120 = some c ∧
          (assign_tables_to_reservation dbComboZone 10 0 0 120 6 none).1 = c.table_ids ∧
          ∀ tid ∈ c.table_ids, is_table_available dbComboZone tid 0 0 120 none = true)) :=
  allocator_single_then_combo dbComboZone 10 0 0 120 6 none (by decide)

/-! ## C4: tightest fit -/

/-- C4 counterexample: with a capacity-6 table and a fully available
capacity-4 combination in the same zone, a party of 4 is assigned the single
table of capacity 6, so the assigned capacity is not minimal among all active,
sufficient and available candidates of the chosen zone. -/
theorem tightest_fit_cex :
    (assign_tables_to_reservation dbBigTableSmallCombo 10 0 0 120 4 none).1 = [1] ∧
    (∃ t ∈ dbBigTableSmallCombo.tables, t.id = 1 ∧ t.capacity = 6) ∧
    (∃ c ∈ comboCandidates dbBigTableSmallCombo 1 4 0 0 120,
      c.total_capacity = 4 ∧ ¬((6 : Int) ≤ c.total_capacity)) := by
  decide

/-- C4 amended: a successful allocation always has capacity at least the party
size, and the assigned capacity is minimal among the candidates of the chosen
strategy in the chosen zone: a single table is tightest among the zone's
single-table candidates, and a combination (only chosen when no single table
fits) is tightest among the zone's fully available combinations. -/
theorem allocator_tightest_fit_per_strategy (db : DB) (rid : Nat) (d : Nat)
    (s e : Int) (g : Int) (pz : Option Nat)
    (h : (assign_tables_to_reservation db rid d s e g pz).1 ≠ []) :
    ∃ z ∈ candidateZones db pz,
      ((∃ t ∈ singleCandidates db z.id g d s e,
          (assign_tables_to_reservation db rid d s e g pz).1 = [t.id] ∧
          g ≤ t.capacity ∧
          ∀ t' ∈ singleCandidates db z.id g d s e, t.capacity ≤ t'.capacity) ∨
       (singleCandidates db z.id g d s e = [] ∧
        ∃ c ∈ comboCandidates db z.id g d s e,
          (assign_tables_to_reservation db rid d s e g pz).1 = c.table_ids ∧
          g ≤ c.total_capacity ∧
          ∀ c' ∈ comboCandidates db z.id g d s e,
            c.total_capacity ≤ c'.total_capacity)) := by
  obtain ⟨zs₁, z, zs₂, heq, hfail, hcase⟩ :=
    assignInZones_success db rid d s e g (candidateZones db pz) h
  have hzmem : z ∈ candidateZones db pz := by
    rw [heq]
    exact List.mem_append_right zs₁ (List.mem_cons_self z zs₂)
  refine ⟨z, hzmem, ?_⟩
  rcases hcase with ⟨t, ht, heq2⟩ | ⟨hsn, c, hc, heq2⟩
  · obtain ⟨htmem, htmin⟩ := pickSingle_some db z.id g d s e t ht
    refine Or.inl ⟨t, htmem, ?_, ?_, htmin⟩
    · unfold assign_tables_to_reservation
      rw [heq2]
    · exact ((mem_singleCandidates db z.id g d s e t).mp htmem).2.2.2.1
  · obtain ⟨hcmem, hcmin⟩ := pickCombo_some db z.id g d s e c hc
    refine Or.inr ⟨(pickSingle_none_iff db z.id g d s e).mp hsn, c, hcmem, ?_, ?_, hcmin⟩
    · unfold assign_tables_to_reservation
      rw [heq2]
    · exact ((mem_comboCandidates db z.id g d s e c).mp hcmem).2.2.2.1

/-- C4 witness: with tables of capacity 6, 2 and 2 and a capacity-4
combination, a party of 4 gets the capacity-6 table — the only single-table
candidate, hence tightest among single tables. -/
theorem allocator_tightest_fit_per_strategy_witness :
    ∃ z ∈ candidateZones dbBigTableSmallCombo none,
      ((∃ t ∈ singleCandidates dbBigTableSmallCombo z.id 4 0 0 120,
          (assign_tables_to_reservation dbBigTableSmallCombo 10 0 0 120 4 none).1 = [t.id] ∧
          (4 : Int) ≤ t.capacity ∧
          ∀ t' ∈ singleCandidates dbBigTableSmallCombo z.id 4 0 0 120,
            t.capacity ≤ t'.capacity) ∨
       (singleCandidates dbBigTableSmallCombo z.id 4 0 0 120 = [] ∧
        ∃ c ∈ comboCandidates dbBigTableSmallCombo z.id 4 0 0 120,
          (assign_tables_to_reservation dbBigTableSmallCombo 10 0 0 120 4 none).1 = c.table_ids ∧
          (4 : Int) ≤ c.total_capacity ∧
          ∀ c' ∈ comboCandidates dbBigTableSmallCombo z.id 4 0 0 120,
            c.total_capacity ≤ c'.total_capacity)) :=
  allocator_tightest_fit_per_strategy dbBigTableSmallCombo 10 0 0 120 4 none (by decide)

/-! ## FUNCIÓN 2: create_reservation_with_assignment -/

/-- The json object create_reservation_with_assignment builds. -/
structure CreateResult where
  success : Bool
  error : Option String
  reservation_id : Option Nat
  assigned_tables : List Nat
deriving DecidableEq

def mkFail (msg : String) : CreateResult := ⟨false, some msg, none, []⟩

/-- The special_closed_days test: a single closed date or a closed range. -/
def specialClosed (db : DB) (d : Nat) : Bool :=
  db.special_closed_days.any fun scd =>
    (!scd.is_range && scd.date == d) ||
      (scd.is_range && decide (scd.range_start ≤ d) && decide (d ≤ scd.range_end))

/-- SELECT ... FROM special_schedule_days WHERE date = p_date AND is_active LIMIT 1. -/
def specialScheduleFor (db : DB) (d : Nat) : Option SpecialScheduleDay :=
  (db.special_schedule_days.filter fun ss => ss.date == d && ss.is_active).head?

/-- The time-window rejection: a special schedule for the date overrides the
regular weekly schedule; both comparisons are inclusive of their boundaries. -/
def scheduleRejected (db : DB) (d : Nat) (t : Nat) : Bool :=
  match specialScheduleFor db d with
  | some ss => decide (t < ss.opening_time) || decide (ss.closing_time < t)
  | none =>
    !(db.restaurant_schedules.any fun rs =>
      rs.day_of_week == dayOfWeek d && rs.is_active &&
        decide (rs.opening_time ≤ t) && decide (t ≤ rs.closing_time))

/-- The fresh id RETURNING id hands back for the inserted reservation row. -/
def nextReservationId (db : DB) : Nat :=
  (db.reservations.foldr (fun r m => max r.id m) 0) + 1

def insertReservation (db : DB) (rid cid : Nat) (d t : Nat) (g : Int)
    (s e : Int) (dur : Nat) : DB :=
  { db with reservations :=
      db.reservations ++ [⟨rid, cid, d, t, g, .confirmed, s, e, dur⟩] }

/-- DELETE FROM reservations WHERE id = rid. -/
def deleteReservation (db : DB) (rid : Nat) : DB :=
  { db with reservations := db.reservations.filter fun r => !(r.id == rid) }

/-- The exception handler of assign_tables_to_reservation: DELETE FROM
reservation_table_assignments WHERE reservation_id = rid. -/
def clearAssignments (db : DB) (rid : Nat) : DB :=
  { db with reservation_table_assignments :=
      db.reservation_table_assignments.filter fun a => !(a.reservation_id == rid) }

/-- FUNCIÓN 2 of the source. `checkDinersLimit` is the collaborator
`check_diners_limit`, modelled from the spec (§6, external to the repository's
files) as an arbitrary function whose failure result is returned verbatim.
`excRaised` injects an unexpected error raised during the assignment step
after the reservation row is inserted; its effect is the composition of the
two exception handlers, which clear the attempt's assignment rows and delete
the attempt's reservation row before the failure is surfaced. -/
def create_reservation_with_assignment (db : DB)
    (checkDinersLimit : Nat → Nat → Int → CreateResult) (excRaised : Bool)
    (cid : Nat) (d : Nat) (t : Nat) (g : Int) (dur : Nat) (pz : Option Nat) :
    CreateResult × DB :=
  if specialClosed db d then
    (mkFail "Restaurant is closed on selected date", db)
  else if scheduleRejected db d t then
    (mkFail "Restaurant is closed at selected time", db)
  else
    let dc := checkDinersLimit d t g
    if dc.success == false then
      (dc, db)
    else
      let s := toInstant d t
      let e := s + (dur : Int)
      let rid := nextReservationId db
      let db1 := insertReservation db rid cid d t g s e dur
      if excRaised then
        (mkFail "Error al crear la reserva",
          deleteReservation (clearAssignments db1 rid) rid)
      else
        let res := assign_tables_to_reservation db1 rid d s e g pz
        if res.1.isEmpty then
          (mkFail "No hay mesas disponibles para esta capacidad en el horario solicitado",
            deleteReservation res.2 rid)
        else
          (⟨true, none, some rid, res.1⟩, res.2)

/-! ## C2: all-or-nothing creation -/

theorem id_le_fold (rid : Nat) :
    ∀ l : List Reservation, ∀ r ∈ l, r.id ≤ l.foldr (fun r m => max r.id m) 0
  | [], r, hr => absurd hr (List.not_mem_nil r)
  | x :: xs, r, hr => by
    rcases List.mem_cons.mp hr with h | h
    · exact h ▸ le_max_left _ _
    · exact le_trans (id_le_fold rid xs r h) (le_max_right _ _)

theorem id_lt_next (db : DB) (r : Reservation) (hr : r ∈ db.reservations) :
    r.id < nextReservationId db :=
  Nat.lt_succ_of_le (id_le_fold 0 db.reservations r hr)

theorem deleteReservation_insertReservation (db : DB) (rid cid d t : Nat)
    (g : Int) (s e : Int) (dur : Nat)
    (hfresh : ∀ r ∈ db.reservations, r.id ≠ rid) :
    deleteReservation (insertReservation db rid cid d t g s e dur) rid = db := by
  cases db with
  | mk zs ts cs rs as sl sc scd ssd =>
    simp only [deleteReservation, insertReservation, List.filter_append]
    simp only at hfresh
    have h1 : rs.filter (fun r => !(r.id == rid)) = rs :=
      List.filter_eq_self.mpr fun r hr => by simpa using hfresh r hr
    have h2 : List.filter (fun r : Reservation => !(r.id == rid))
        [⟨rid, cid, d, t, g, .confirmed, s, e, dur⟩] = [] := by simp
    rw [h1, h2, List.append_nil]

theorem clearAssignments_fresh (db : DB) (rid : Nat)
    (hfresh : ∀ a ∈ db.reservation_table_assignments, a.reservation_id ≠ rid) :
    clearAssignments db rid = db := by
  cases db with
  | mk zs ts cs rs as sl sc scd ssd =>
    simp only [clearAssignments]
    simp only at hfresh
    have h1 : as.filter (fun a => !(a.reservation_id == rid)) = as :=
      List.filter_eq_self.mpr fun a ha => by simpa using hfresh a ha
    rw [h1]

/-- C2: create_reservation_with_assignment is all-or-nothing — whenever the
returned result has success = false (policy rejection, diners-limit failure,
allocation exhaustion, or an unexpected error raised after the reservation row
was inserted), the persisted state is exactly the input state: no reservation
row and no assignment row of the attempt remains. The hypothesis states that
every pre-existing assignment row references a pre-existing reservation. -/
theorem create_reservation_all_or_nothing (db : DB)
    (checkDinersLimit : Nat → Nat → Int → CreateResult) (excRaised : Bool)
    (cid d t : Nat) (g : Int) (dur : Nat) (pz : Option Nat)
    (hwf : ∀ a ∈ db.reservation_table_assignments, ∃ r ∈ db.reservations,
      a.reservation_id = r.id)
    (hfail : (create_reservation_with_assignment db checkDinersLimit excRaised
      cid d t g dur pz).1.success = false) :
    (create_reservation_with_assignment db checkDinersLimit excRaised
      cid d t g dur pz).2 = db := by
  have hfreshR : ∀ r ∈ db.reservations, r.id ≠ nextReservationId db :=
    fun r hr => Nat.ne_of_lt (id_lt_next db r hr)
  have hfreshA : ∀ a ∈ db.reservation_table_assignments,
      a.reservation_id ≠ nextReservationId db := by
    intro a ha
    obtain ⟨r, hr, heq⟩ := hwf a ha
    exact heq ▸ hfreshR r hr
  simp only [create_reservation_with_assignment] at hfail ⊢
  split_ifs at hfail ⊢ with h1 h2 h3 h4 h5
  · rfl
  · rfl
  · rfl
  · rw [clearAssignments_fresh
      (insertReservation db (nextReservationId db) cid d t g (toInstant d t)
        (toInstant d t + (dur : Int)) dur) (nextReservationId db) hfreshA]
    exact deleteReservation_insertReservation db _ cid d t g _ _ dur hfreshR
  · have hempty : (assign_tables_to_reservation
        (insertReservation db (nextReservationId db) cid d t g (toInstant d t)
          (toInstant d t + (dur : Int)) dur)
        (nextReservationId db) d (toInstant d t)
        (toInstant d t + (dur : Int)) g pz).1 = [] :=
      List.isEmpty_iff.mp h5
    have hstate : (assign_tables_to_reservation
        (insertReservation db (nextReservationId db) cid d t g (toInstant d t)
          (toInstant d t + (dur : Int)) dur)
        (nextReservationId db) d (toInstant d t)
        (toInstant d t + (dur : Int)) g pz).2 =
          insertReservation db (nextReservationId db) cid d t g (toInstant d t)
            (toInstant d t + (dur : Int)) dur :=
      assignInZones_empty_state _ _ _ _ _ _ _ hempty
    rw [hstate]
    exact deleteReservation_insertReservation db _ cid d t g _ _ dur hfreshR

/-- A database whose only special closed day is the single date 5. -/
def dbClosedDay : DB :=
  ⟨[⟨1, "A", 1, true, "green"⟩], [⟨1, "M1", 4, none, some 1, true⟩], [], [], [],
   [], [], [⟨false, 5, 0, 0⟩], []⟩

/-- A diners-limit collaborator that always accepts. -/
def alwaysOkLimit : Nat → Nat → Int → CreateResult :=
  fun _ _ _ => ⟨true, none, none, []⟩

/-- C2 witness: creating on the closed date 5 fails and leaves the database
exactly as it was. -/
theorem create_reservation_all_or_nothing_witness :
    (create_reservation_with_assignment dbClosedDay alwaysOkLimit false
      1 5 600 2 90 none).2 = dbClosedDay :=
  create_reservation_all_or_nothing dbClosedDay alwaysOkLimit false 1 5 600 2 90 none
    (by decide) (by decide)

/-! ## FUNCIÓN 3: get_available_time_slots_with_zones -/

/-- A row of the all_options CTE. -/
structure OptionRow where
  slot_time : Nat
  capacity : Int
  zone_name : String
  zone_priority : Int
  zone_id : Option Nat
deriving DecidableEq

/-- A row of the function's result table. -/
structure SlotRow where
  slot_time : Nat
  zone_name : String
  zone_id : Option Nat
deriving DecidableEq

/-- slot_times CTE: configured grid points lying inside an active weekly
schedule window of the weekday, both boundaries inclusive. -/
def slotTimes (db : DB) (dow : Nat) : List Nat :=
  db.time_slots.filter fun ts =>
    db.restaurant_schedules.any fun rs =>
      rs.day_of_week == dow && rs.is_active && decide (rs.opening_time ≤ ts) &&
        decide (ts ≤ rs.closing_time)

/-- available_tables CTE restricted to one slot: active tables not occupied for
the slot's window, with the zone columns of the left join. -/
def availableTableRows (db : DB) (d : Nat) (dur : Nat) (ts : Nat) : List OptionRow :=
  (db.tables.filter fun t =>
      t.is_active &&
        !((occupiedForWindow db d (toInstant d ts) (toInstant d ts + (dur : Int))).contains
          t.id)).map fun t =>
    match t.zone_id.bind (lookupZone db) with
    | some z => ⟨ts, t.capacity, z.name, z.priority_order, some z.id⟩
    | none => ⟨ts, t.capacity, "Sin zona", 999, none⟩

/-- available_combinations CTE restricted to one slot: active combinations none
of whose member tables is occupied for the slot's window. -/
def availableComboRows (db : DB) (d : Nat) (dur : Nat) (ts : Nat) : List OptionRow :=
  (db.table_combinations.filter fun c =>
      c.is_active &&
        !(c.table_ids.any fun tid =>
          (occupiedForWindow db d (toInstant d ts) (toInstant d ts + (dur : Int))).contains
            tid)).map fun c =>
    match c.zone_id.bind (lookupZone db) with
    | some z => ⟨ts, c.total_capacity, z.name, z.priority_order, some z.id⟩
    | none => ⟨ts, c.total_capacity, "Sin zona", 999, none⟩

/-- all_options CTE for one slot: UNION ALL of tables and combinations. -/
def allOptionRows (db : DB) (d : Nat) (dur : Nat) (ts : Nat) : List OptionRow :=
  availableTableRows db d dur ts ++ availableComboRows db d dur ts

/-- ORDER BY ao.slot_time, ao.zone_name, ao.zone_priority ASC, ao.capacity ASC. -/
def optionSortKey (o : OptionRow) : Lex (Nat × Lex (String × Lex (Int × Int))) :=
  toLex (o.slot_time, toLex (o.zone_name, toLex (o.zone_priority, o.capacity)))

/-- DISTINCT ON (ao.slot_time, ao.zone_name). -/
def groupKey (o : OptionRow) : Nat × String :=
  (o.slot_time, o.zone_name)

/-- Final ORDER BY azps.slot_time, azps.zone_priority ASC. -/
def finalSortKey (o : OptionRow) : Lex (Nat × Int) :=
  toLex (o.slot_time, o.zone_priority)

/-- FUNCIÓN 3 of the source: per slot of the grid, every sufficient-capacity
candidate, reduced to the best row per (slot, zone name) and projected onto
(slot_time, zone_name, zone_id). -/
def get_available_time_slots_with_zones (db : DB) (d : Nat) (g : Int) (dur : Nat) :
    List SlotRow :=
  let opts := ((slotTimes db (dayOfWeek d)).flatMap fun ts =>
    allOptionRows db d dur ts).filter fun o => decide (g ≤ o.capacity)
  let best := distinctOn groupKey (sortByKey optionSortKey opts)
  (sortByKey finalSortKey best).map fun o => ⟨o.slot_time, o.zone_name, o.zone_id⟩

/-! ## C10: deterministic read -/

/-- C10: the Availability Slot Calculator is a pure read — two calls with
identical arguments over the same persisted state return identical output,
row order included. -/
theorem slot_calculator_deterministic (db : DB) (d1 d2 : Nat) (g1 g2 : Int)
    (dur1 dur2 : Nat) (hd : d1 = d2) (hg : g1 = g2) (hdur : dur1 = dur2) :
    get_available_time_slots_with_zones db d1 g1 dur1 =
      get_available_time_slots_with_zones db d2 g2 dur2 := by
  rw [hd, hg, hdur]

/-- One active zone, one table of capacity 4, a three-point evening grid and a
weekly window 20:00-23:00 for weekday 0 (closing time 1380 is on the grid). -/
def dbSlots : DB :=
  ⟨[⟨1, "A", 1, true, "green"⟩], [⟨1, "M1", 4, none, some 1, true⟩], [], [], [],
   [1200, 1260, 1380], [⟨0, 1200, 1380, true⟩], [], []⟩

theorem slot_calculator_deterministic_witness :
    get_available_time_slots_with_zones dbSlots 0 2 90 =
      get_available_time_slots_with_zones dbSlots 0 2 90 :=
  slot_calculator_deterministic dbSlots 0 0 2 2 90 90 rfl rfl rfl

/-! ## C6 and C7: slot grid and per-(slot, zone) selection -/

theorem allOptionRows_slot_time (db : DB) (d : Nat) (dur : Nat) (ts : Nat) :
    ∀ o ∈ allOptionRows db d dur ts, o.slot_time = ts := by
  intro o ho
  rcases List.mem_append.mp ho with h | h
  · obtain ⟨t, _, heq⟩ := List.mem_map.mp h
    cases hz : t.zone_id.bind (lookupZone db) <;> rw [hz] at heq <;>
      exact heq ▸ rfl
  · obtain ⟨c, _, heq⟩ := List.mem_map.mp h
    cases hz : c.zone_id.bind (lookupZone db) <;> rw [hz] at heq <;>
      exact heq ▸ rfl

/-- C6: the slot grid contains every configured time point lying inside an
active weekly window of the date's weekday — the closing boundary included —
and any such slot offering a candidate of sufficient capacity appears in the
calculator's output. -/
theorem slot_grid_inclusive (db : DB) (d : Nat) (g : Int) (dur : Nat) (ts : Nat)
    (hslot : ts ∈ db.time_slots)
    (hsched : ∃ rs ∈ db.restaurant_schedules, rs.day_of_week = dayOfWeek d ∧
      rs.is_active = true ∧ rs.opening_time ≤ ts ∧ ts ≤ rs.closing_time)
    (hcap : ∃ o ∈ allOptionRows db d dur ts, g ≤ o.capacity) :
    ts ∈ slotTimes db (dayOfWeek d) ∧
      ∃ row ∈ get_available_time_slots_with_zones db d g dur, row.slot_time = ts := by
  have hgrid : ts ∈ slotTimes db (dayOfWeek d) := by
    refine List.mem_filter.mpr ⟨hslot, ?_⟩
    obtain ⟨rs, hrs, h1, h2, h3, h4⟩ := hsched
    refine List.any_eq_true.mpr ⟨rs, hrs, ?_⟩
    simp [h1, h2, h3, h4]
  refine ⟨hgrid, ?_⟩
  obtain ⟨o, ho, hoc⟩ := hcap
  have hopts : o ∈ ((slotTimes db (dayOfWeek d)).flatMap fun ts2 =>
      allOptionRows db d dur ts2).filter fun o2 => decide (g ≤ o2.capacity) :=
    List.mem_filter.mpr ⟨List.mem_flatMap.mpr ⟨ts, hgrid, ho⟩, by simpa using hoc⟩
  have hsortmem : o ∈ sortByKey optionSortKey
      (((slotTimes db (dayOfWeek d)).flatMap fun ts2 =>
        allOptionRows db d dur ts2).filter fun o2 => decide (g ≤ o2.capacity)) :=
    (sortByKey_perm optionSortKey _).mem_iff.mpr hopts
  obtain ⟨y, hy, hyk⟩ := distinctOn_exists_of_mem groupKey _ o hsortmem
  have hyslot : y.slot_time = ts := by
    have h1 : y.slot_time = o.slot_time := congrArg Prod.fst hyk
    rw [h1]
    exact allOptionRows_slot_time db d dur ts o ho
  have hy2 : y ∈ sortByKey finalSortKey (distinctOn groupKey (sortByKey optionSortKey
      (((slotTimes db (dayOfWeek d)).flatMap fun ts2 =>
        allOptionRows db d dur ts2).filter fun o2 => decide (g ≤ o2.capacity)))) :=
    (sortByKey_perm finalSortKey _).mem_iff.mpr hy
  exact ⟨⟨y.slot_time, y.zone_name, y.zone_id⟩, List.mem_map.mpr ⟨y, hy2, rfl⟩, hyslot⟩

/-- C6 witness: with closing time 23:00 (1380) on the grid and a free table of
capacity 4, the 23:00 slot is in the grid and in the output. -/
theorem slot_grid_inclusive_witness :
    1380 ∈ slotTimes dbSlots (dayOfWeek 0) ∧
      ∃ row ∈ get_available_time_slots_with_zones dbSlots 0 2 90,
        row.slot_time = 1380 :=
  slot_grid_inclusive dbSlots 0 2 90 1380 (by decide) (by decide) (by decide)


/-- The filtered union of candidates over the whole grid (the rows entering
available_zones_per_slot). -/
def candidateOptions (db : DB) (d : Nat) (g : Int) (dur : Nat) : List OptionRow :=
  ((slotTimes db (dayOfWeek d)).flatMap fun ts =>
    allOptionRows db d dur ts).filter fun o => decide (g ≤ o.capacity)

/-- The rows surviving DISTINCT ON (slot_time, zone_name). -/
def bestRows (db : DB) (d : Nat) (g : Int) (dur : Nat) : List OptionRow :=
  distinctOn groupKey (sortByKey optionSortKey (candidateOptions db d g dur))

theorem gatsz_eq (db : DB) (d : Nat) (g : Int) (dur : Nat) :
    get_available_time_slots_with_zones db d g dur =
      (sortByKey finalSortKey (bestRows db d g dur)).map
        (fun o => (⟨o.slot_time, o.zone_name, o.zone_id⟩ : SlotRow)) :=
  rfl

theorem optionSortKey_peel (o o' : OptionRow) (hgk : groupKey o' = groupKey o)
    (h : keyLe optionSortKey o o') :
    (toLex (o.zone_priority, o.capacity) : Lex (Int × Int)) ≤
      toLex (o'.zone_priority, o'.capacity) := by
  have hs : o'.slot_time = o.slot_time := congrArg Prod.fst hgk
  have hn : o'.zone_name = o.zone_name := congrArg Prod.snd hgk
  have h' : (toLex (o.slot_time, toLex (o.zone_name,
      toLex (o.zone_priority, o.capacity))) :
        Lex (Nat × Lex (String × Lex (Int × Int)))) ≤
      toLex (o'.slot_time, toLex (o'.zone_name,
        toLex (o'.zone_priority, o'.capacity))) := h
  rcases (Prod.Lex.le_iff _ _).mp h' with hlt | ⟨_, hrest⟩
  · rw [hs] at hlt
    exact absurd hlt (lt_irrefl _)
  · rcases (Prod.Lex.le_iff _ _).mp hrest with hlt2 | ⟨_, hrest2⟩
    · rw [hn] at hlt2
      exact absurd hlt2 (lt_irrefl _)
    · exact hrest2

theorem finalSortKey_slot_le (a b : OptionRow) (h : keyLe finalSortKey a b) :
    a.slot_time ≤ b.slot_time := by
  have h' : (toLex (a.slot_time, a.zone_priority) : Lex (Nat × Int)) ≤
      toLex (b.slot_time, b.zone_priority) := h
  rcases (Prod.Lex.le_iff _ _).mp h' with hlt | ⟨heq, _⟩
  · exact le_of_lt hlt
  · exact le_of_eq heq

/-- C7: the calculator's output lists at most one row per (slot time, zone
name) pair; it is the projection of a best-candidate list sorted by slot time
then zone priority ascending (so output rows are ordered by slot time, with
zone priority ordering the rows of one slot); and each retained row is a
sufficient-capacity candidate of its slot minimal in (zone priority, capacity)
among its (slot, zone) group's candidates, single tables and combinations
taken together — one output row per zone that can seat the party. -/
theorem slot_zone_best_rows (db : DB) (d : Nat) (g : Int) (dur : Nat) :
    ∃ best : List OptionRow,
      get_available_time_slots_with_zones db d g dur =
        (sortByKey finalSortKey best).map
          (fun o => (⟨o.slot_time, o.zone_name, o.zone_id⟩ : SlotRow)) ∧
      List.Pairwise (fun a b : SlotRow =>
          (a.slot_time, a.zone_name) ≠ (b.slot_time, b.zone_name))
        (get_available_time_slots_with_zones db d g dur) ∧
      List.Pairwise (fun a b : SlotRow => a.slot_time ≤ b.slot_time)
        (get_available_time_slots_with_zones db d g dur) ∧
      List.Sorted (keyLe finalSortKey) (sortByKey finalSortKey best) ∧
      ∀ o ∈ best, o.slot_time ∈ slotTimes db (dayOfWeek d) ∧
        o ∈ allOptionRows db d dur o.slot_time ∧ g ≤ o.capacity ∧
        ∀ o' ∈ allOptionRows db d dur o.slot_time, g ≤ o'.capacity →
          groupKey o' = groupKey o →
          (toLex (o.zone_priority, o.capacity) : Lex (Int × Int)) ≤
            toLex (o'.zone_priority, o'.capacity) := by
  refine ⟨bestRows db d g dur, gatsz_eq db d g dur, ?_, ?_, sortByKey_sorted _ _, ?_⟩
  · rw [gatsz_eq db d g dur, List.pairwise_map]
    have hpair : List.Pairwise (fun a b : OptionRow => groupKey a ≠ groupKey b)
        (bestRows db d g dur) :=
      distinctOn_pairwise groupKey _
    exact ((sortByKey_perm finalSortKey (bestRows db d g dur)).pairwise_iff
      (fun hab h => hab h.symm)).mpr hpair
  · rw [gatsz_eq db d g dur, List.pairwise_map]
    have hsorted := sortByKey_sorted finalSortKey (bestRows db d g dur)
    exact List.Pairwise.imp (fun h => finalSortKey_slot_le _ _ h) hsorted
  · intro o ho
    have hmem1 : o ∈ sortByKey optionSortKey (candidateOptions db d g dur) :=
      distinctOn_subset groupKey _ o ho
    have hmem2 : o ∈ candidateOptions db d g dur :=
      (sortByKey_perm optionSortKey _).mem_iff.mp hmem1
    have hfil := List.mem_filter.mp hmem2
    obtain ⟨ts, hts, hots⟩ := List.mem_flatMap.mp hfil.1
    have hslot : o.slot_time = ts := allOptionRows_slot_time db d dur ts o hots
    have hcap : g ≤ o.capacity := by simpa using hfil.2
    refine ⟨by rw [hslot]; exact hts, by rw [hslot]; exact hots, hcap, ?_⟩
    intro o' ho' hcap' hgk
    have ho'2 : o' ∈ candidateOptions db d g dur := by
      refine List.mem_filter.mpr
        ⟨List.mem_flatMap.mpr ⟨o.slot_time, by rw [hslot]; exact hts, ho'⟩,
          by simpa using hcap'⟩
    have ho'3 : o' ∈ sortByKey optionSortKey (candidateOptions db d g dur) :=
      (sortByKey_perm optionSortKey _).mem_iff.mpr ho'2
    have hmin := distinctOn_min groupKey
      (sortByKey optionSortKey (candidateOptions db d g dur))
      (sortByKey_sorted optionSortKey _) o ho o' ho'3 hgk
    exact optionSortKey_peel o o' hgk hmin

/-! ## C9: special days and the slot calculator -/

/-- C9: the slot calculator consults only the weekly schedule — replacing the
special closed days and the special schedule days leaves its output unchanged
— while create_reservation_with_assignment rejects a special-closed date
outright and rejects any time outside an overriding special schedule window,
so for such dates the calculator can report slots the creation path refuses
as closed or out of hours. -/
theorem slot_calculator_ignores_special_days (db : DB) (d : Nat) (g : Int)
    (dur : Nat) (scd : List SpecialClosedDay) (ssd : List SpecialScheduleDay)
    (checkDinersLimit : Nat → Nat → Int → CreateResult) (excRaised : Bool)
    (cid t : Nat) (gg : Int) (dur2 : Nat) (pz : Option Nat) :
    (get_available_time_slots_with_zones
        { db with special_closed_days := scd, special_schedule_days := ssd }
        d g dur =
      get_available_time_slots_with_zones db d g dur) ∧
    (specialClosed db d = true →
      (create_reservation_with_assignment db checkDinersLimit excRaised
        cid d t gg dur2 pz).1 = mkFail "Restaurant is closed on selected date") ∧
    (∀ ss, specialScheduleFor db d = some ss →
      (t < ss.opening_time ∨ ss.closing_time < t) →
      specialClosed db d = false →
      (create_reservation_with_assignment db checkDinersLimit excRaised
        cid d t gg dur2 pz).1 = mkFail "Restaurant is closed at selected time") := by
  refine ⟨rfl, ?_, ?_⟩
  · intro h
    simp only [create_reservation_with_assignment]
    rw [if_pos h]
  · intro ss hss hout hnc
    have hrej : scheduleRejected db d t = true := by
      unfold scheduleRejected
      rw [hss]
      rcases hout with h | h
      · simp [h]
      · simp [h]
    simp only [create_reservation_with_assignment]
    rw [if_neg (show ¬specialClosed db d = true by rw [hnc]; exact Bool.false_ne_true),
      if_pos hrej]

/-! ## FUNCIÓN 4: get_available_tables_for_reservation -/

/-- A row of the admin reporter's result table. -/
structure TableStatusRow where
  table_id : Nat
  table_name : String
  capacity : Int
  extra_capacity : Int
  total_capacity : Int
  zone_id : Option Nat
  zone_name : String
  zone_color : Option String
  is_available : Bool
deriving DecidableEq

/-- ORDER BY z.priority_order ASC NULLS LAST, t.name ASC under the zone left
join (a table whose zone is missing sorts after every table with a zone). -/
def adminSortKey (db : DB) (t : Table) : Lex (Nat × Lex (Int × String)) :=
  match t.zone_id.bind (lookupZone db) with
  | some z => toLex (0, toLex (z.priority_order, t.name))
  | none => toLex (1, toLex (0, t.name))

/-- One SELECT row of the admin reporter for a table, given the occupied set. -/
def mkTableStatusRow (db : DB) (occ : List Nat) (t : Table) : TableStatusRow :=
  match t.zone_id.bind (lookupZone db) with
  | some z => ⟨t.id, t.name, t.capacity, t.extra_capacity.getD 0,
      t.capacity + t.extra_capacity.getD 0, some z.id, z.name, some z.color,
      !(occ.contains t.id)⟩
  | none => ⟨t.id, t.name, t.capacity, t.extra_capacity.getD 0,
      t.capacity + t.extra_capacity.getD 0, none, "Sin zona", none,
      !(occ.contains t.id)⟩

/-- FUNCIÓN 4 of the source: every active table with its zone columns and a
free/occupied flag for the requested window, the in-edit reservation excluded
from occupancy when supplied. -/
def get_available_tables_for_reservation (db : DB) (d : Nat) (t : Nat)
    (dur : Nat) (excl : Option Nat) : List TableStatusRow :=
  (sortByKey (adminSortKey db) (db.tables.filter fun tb => tb.is_active)).map
    (mkTableStatusRow db
      (occupiedTablesExcl db d (toInstant d t) (toInstant d t + (dur : Int)) excl))

theorem mkTableStatusRow_fields (db : DB) (occ : List Nat) (t : Table) :
    (mkTableStatusRow db occ t).table_id = t.id ∧
      (mkTableStatusRow db occ t).table_name = t.name ∧
      (mkTableStatusRow db occ t).capacity = t.capacity ∧
      (mkTableStatusRow db occ t).extra_capacity = t.extra_capacity.getD 0 ∧
      (mkTableStatusRow db occ t).total_capacity =
        t.capacity + t.extra_capacity.getD 0 ∧
      (mkTableStatusRow db occ t).is_available = !(occ.contains t.id) := by
  unfold mkTableStatusRow
  cases t.zone_id.bind (lookupZone db) <;>
    exact ⟨rfl, rfl, rfl, rfl, rfl, rfl⟩

/-- A database whose only table is inactive (soft-deactivated). -/
def dbInactiveTable : DB :=
  ⟨[⟨1, "A", 1, true, "green"⟩], [⟨1, "M1", 4, none, some 1, false⟩], [], [], [],
   [], [], [], []⟩

/-- C8 counterexample: the reporter's WHERE is_active filter drops the
inactive table, so it does not return one status row for every table. -/
theorem admin_reporter_every_table_cex :
    ¬(∀ tb ∈ dbInactiveTable.tables,
      ∃ row ∈ get_available_tables_for_reservation dbInactiveTable 0 600 90 none,
        row.table_id = tb.id) := by
  decide

/-- C8 amended: the admin reporter returns one status row for every ACTIVE
table — with no filtering by party-size sufficiency or zone preference — each
row carrying capacity, extra capacity and their sum together with the zone
columns; rows are the image of the active tables sorted by zone priority
(missing zones last) then table name; and the free flag holds iff no
non-excluded confirmed/arrived reservation of the date overlaps the window on
that table. -/
theorem admin_reporter_rows (db : DB) (d : Nat) (t : Nat) (dur : Nat)
    (excl : Option Nat) :
    ∃ tbs : List Table,
      List.Perm tbs (db.tables.filter fun tb => tb.is_active) ∧
      List.Sorted (keyLe (adminSortKey db)) tbs ∧
      get_available_tables_for_reservation db d t dur excl =
        tbs.map (mkTableStatusRow db (occupiedTablesExcl db d (toInstant d t)
          (toInstant d t + (dur : Int)) excl)) ∧
      (∀ tb ∈ db.tables, tb.is_active = true →
        ∃ row ∈ get_available_tables_for_reservation db d t dur excl,
          row.table_id = tb.id ∧ row.capacity = tb.capacity ∧
          row.extra_capacity = tb.extra_capacity.getD 0 ∧
          row.total_capacity = tb.capacity + tb.extra_capacity.getD 0) ∧
      (∀ row ∈ get_available_tables_for_reservation db d t dur excl,
        (row.is_available = true ↔
          ¬∃ r ∈ db.reservations, ∃ a ∈ db.reservation_table_assignments,
            a.reservation_id = r.id ∧ a.table_id = row.table_id ∧ r.date = d ∧
            (r.status = .confirmed ∨ r.status = .arrived) ∧
            r.start_at < toInstant d t + (dur : Int) ∧ toInstant d t < r.end_at ∧
            (∀ x, excl = some x → r.id ≠ x))) := by
  refine ⟨sortByKey (adminSortKey db) (db.tables.filter fun tb => tb.is_active),
    sortByKey_perm _ _, sortByKey_sorted _ _, rfl, ?_, ?_⟩
  · intro tb htb hact
    have h1 : tb ∈ db.tables.filter fun tb2 => tb2.is_active :=
      List.mem_filter.mpr ⟨htb, hact⟩
    have h2 : tb ∈ sortByKey (adminSortKey db)
        (db.tables.filter fun tb2 => tb2.is_active) :=
      (sortByKey_perm _ _).mem_iff.mpr h1
    obtain ⟨hid, _, hcap, hex, htot, _⟩ := mkTableStatusRow_fields db
      (occupiedTablesExcl db d (toInstant d t) (toInstant d t + (dur : Int)) excl) tb
    exact ⟨mkTableStatusRow db _ tb, List.mem_map.mpr ⟨tb, h2, rfl⟩,
      hid, hcap, hex, htot⟩
  · intro row hrow
    obtain ⟨tb, _, hroweq⟩ := List.mem_map.mp hrow
    obtain ⟨hid, _, _, _, _, hav⟩ := mkTableStatusRow_fields db
      (occupiedTablesExcl db d (toInstant d t) (toInstant d t + (dur : Int)) excl) tb
    subst hroweq
    rw [hav, hid]
    constructor
    · intro h hex
      have hmem : tb.id ∈ occupiedTablesExcl db d (toInstant d t)
          (toInstant d t + (dur : Int)) excl :=
        (mem_occupiedTablesExcl db d (toInstant d t)
          (toInstant d t + (dur : Int)) excl tb.id).mpr hex
      simp [hmem] at h
    · intro h
      have hnotmem : tb.id ∉ occupiedTablesExcl db d (toInstant d t)
          (toInstant d t + (dur : Int)) excl :=
        fun hm => h ((mem_occupiedTablesExcl db d (toInstant d t)
          (toInstant d t + (dur : Int)) excl tb.id).mp hm)
      simp [hnotmem]
